import Mathlib

/-!
Shallow embedding of `src/lib/winss/filesystem_interface.cpp` (the
`winss::FilesystemInterface` service).

The C++ code wraps platform filesystem primitives in try/catch blocks and
converts every platform failure into a sentinel return value.  We model the
filesystem as an explicit state (files as an association list from path to
content, a set of directories, and a current working directory) and inject
platform failures as explicit boolean/`Except` outcome parameters: each Lean
operation mirrors the corresponding C++ function's control flow, with the
fallible platform call's outcome passed in as an argument.
-/

set_option autoImplicit false

namespace winss

/-- The failure taxonomy absorbed by the service (spec section 7). -/
inductive PlatformError where
  | ioFailure
  | permissionDenied
  | notFound
  | renameFailure
  | handleFailure
deriving DecidableEq, Repr

/-- Filesystem state: files (path to content), directories, working dir. -/
structure FsState where
  files : List (String × String)
  dirs : List String
  cwd : String
deriving DecidableEq, Repr

/-- Look a file up by path in an association list. -/
def lookupFile : List (String × String) → String → Option String
  | [], _ => none
  | (k, v) :: rest, p => if k = p then some v else lookupFile rest p

/-- Drop every binding of a path from an association list. -/
def eraseFile : List (String × String) → String → List (String × String)
  | [], _ => []
  | (k, v) :: rest, p =>
      if k = p then eraseFile rest p else (k, v) :: eraseFile rest p

/-- Content currently stored at `p`, if any. -/
def getFile (fs : FsState) (p : String) : Option String :=
  lookupFile fs.files p

/-- Store content `c` at path `p` (overwriting any previous binding). -/
def setFile (fs : FsState) (p c : String) : FsState :=
  { fs with files := (p, c) :: eraseFile fs.files p }

/-- Delete the file at path `p`, if present. -/
def deleteFile (fs : FsState) (p : String) : FsState :=
  { fs with files := eraseFile fs.files p }

/-- Delete the directory `d`, if present. -/
def deleteDir (fs : FsState) (d : String) : FsState :=
  { fs with dirs := fs.dirs.filter (fun x => x ≠ d) }

/-- `FilesystemInterface::Read`: stream the whole file in; any failure (or a
missing file, whose stream reads as empty) yields the empty string. -/
def Read (fs : FsState) (path : String) (fails : Bool) : String :=
  if fails then ""
  else
    match getFile fs path with
    | some v => v
    | none => ""

/-- `FilesystemInterface::Rename`: `fs::rename(from, to)` inside try/catch.
The platform primitive throws when the source is missing or on an injected
failure; the wrapper returns `false` and leaves the state unchanged. -/
def Rename (fs : FsState) (src dst : String) (fails : Bool) : Bool × FsState :=
  if fails then (false, fs)
  else
    match getFile fs src with
    | none => (false, fs)
    | some c => (true, setFile (deleteFile fs src) dst c)

/-- `FilesystemInterface::Write`: build `temp_path = path + ".new"`, stream
`content << std::endl` to the temporary, then `Rename(temp_path, path)`.
`writeFails` injects a failure of the streaming step, in which case at most a
truncated blob `truncContent` reaches the temporary and `Write` returns
`false`; otherwise the temporary holds the full content plus the appended
line terminator and the result is that of the rename. -/
def Write (fs : FsState) (path content : String) (writeFails : Bool)
    (truncContent : String) (renameFails : Bool) : Bool × FsState :=
  let temp_path := path ++ ".new"
  if writeFails then (false, setFile fs temp_path truncContent)
  else Rename (setFile fs temp_path (content ++ "\n")) temp_path path renameFails

/-- `FilesystemInterface::ChangeDirectory`: `fs::current_path(dir)` in
try/catch. -/
def ChangeDirectory (fs : FsState) (dir : String) (fails : Bool) :
    Bool × FsState :=
  if fails then (false, fs)
  else (true, { fs with cwd := dir })

/-- `FilesystemInterface::DirectoryExists`: `fs::status` + `is_directory` in
try/catch; a status failure reads as "does not exist". -/
def DirectoryExists (fs : FsState) (dir : String) (fails : Bool) : Bool :=
  if fails then false
  else fs.dirs.contains dir

/-- `FilesystemInterface::FileExists`: `fs::status` + `is_regular_file` in
try/catch; a status failure (e.g. permission denied) reads as "does not
exist". -/
def FileExists (fs : FsState) (path : String) (fails : Bool) : Bool :=
  if fails then false
  else (getFile fs path).isSome

/-- The platform primitive `fs::create_directory`: returns whether a
directory was created (false when it already existed), throws on failure. -/
def createDirPrim (fs : FsState) (dir : String) (fails : Bool) :
    Except PlatformError (Bool × FsState) :=
  if fails then .error .ioFailure
  else if fs.dirs.contains dir then .ok (false, fs)
  else .ok (true, { fs with dirs := dir :: fs.dirs })

/-- `FilesystemInterface::CreateDirectory`: checks `DirectoryExists` first and
treats an existing directory as success; otherwise calls the create primitive
and returns `false` when it reports nothing created or throws. -/
def CreateDirectory (fs : FsState) (dir : String)
    (existsFails createFails : Bool) : Bool × FsState :=
  if DirectoryExists fs dir existsFails then (true, fs)
  else
    match createDirPrim fs dir createFails with
    | .error _ => (false, fs)
    | .ok (created, fs2) => if created then (true, fs2) else (false, fs2)

/-- The platform primitive `fs::remove`: returns whether anything was removed
(false when the path did not exist), throws on failure. -/
def removePrim (fs : FsState) (path : String) (fails : Bool) :
    Except PlatformError (Bool × FsState) :=
  if fails then .error .permissionDenied
  else if (getFile fs path).isSome then .ok (true, deleteFile fs path)
  else if fs.dirs.contains path then .ok (true, deleteDir fs path)
  else .ok (false, fs)

/-- `FilesystemInterface::Remove`: calls `fs::remove(path)` and discards its
did-remove boolean; only a thrown failure produces `false`. -/
def Remove (fs : FsState) (path : String) (fails : Bool) : Bool × FsState :=
  match removePrim fs path fails with
  | .ok (_, fs2) => (true, fs2)
  | .error _ => (false, fs)

/-- `FilesystemInterface::Absolute`: `fs::canonical(path)` in try/catch,
falling back to the original path.  The platform resolver is modelled as a
function `canonical : String → Option String` (`none` = it throws). -/
def Absolute (canonical : String → Option String) (path : String) : String :=
  match canonical path with
  | some q => q
  | none => path

/-- Platform environment for `CanonicalUncPath`: the `fs::canonical` resolver,
`CreateFile` (`none` = `INVALID_HANDLE_VALUE`; a handle is a numeric value),
and the final path a handle resolves to (`none` = `GetFinalPathNameByHandle`
returns 0, i.e. the query fails). -/
structure UncEnv where
  canonical : String → Option String
  openHandle : String → Option Nat
  finalPath : Nat → Option String

/-- `GetFinalPathNameByHandle(file, buf, bufsize, ...)`: returns 0 on failure;
on success returns the number of characters written when the final path fits
in `bufsize`, and the required size (including the terminator) when it does
not. -/
def getFinalPathNameByHandle (fp : Option String) (bufsize : Nat) :
    Nat × String :=
  match fp with
  | none => (0, "")
  | some s => if s.length ≤ bufsize then (s.length, s) else (s.length + 1, "")

/-- The `while (true)` buffer-resizing loop of `CanonicalUncPath`, with fuel.
`none` means the loop exited through the `len == 0` failure branch (the
caller then closes the handle and falls back to `Absolute`); `some s` means
the loop broke with the resolved path. -/
def uncLoop (fp : Option String) (bufsize : Nat) : Nat → Option String
  | 0 => none
  | fuel + 1 =>
      let r := getFinalPathNameByHandle fp bufsize
      if r.1 = 0 then none
      else if r.1 ≤ bufsize then some r.2
      else uncLoop fp r.1 fuel

/-- A handle-lifecycle event inside `CanonicalUncPath`: the value `CreateFile`
returned, and each value `CloseHandle` is called on (`none` stands for
`INVALID_HANDLE_VALUE`). -/
inductive HandleEvent where
  | opened (h : Option Nat)
  | closed (h : Option Nat)
deriving DecidableEq, Repr

/-- `FilesystemInterface::CanonicalUncPath` instrumented with its handle
events, mirroring the source's exit paths: open failure closes the (invalid)
handle value and falls back to `Absolute`; a query failure inside the loop
closes the handle and falls back; success closes the handle and returns the
handle-derived path.  The initial buffer size is `path.size() * 2`. -/
def CanonicalUncPathTrace (env : UncEnv) (path : String) :
    String × List HandleEvent :=
  match env.openHandle path with
  | none =>
      (Absolute env.canonical path,
        [HandleEvent.opened none, HandleEvent.closed none])
  | some h =>
      match uncLoop (env.finalPath h) (2 * path.length) 2 with
      | none =>
          (Absolute env.canonical path,
            [HandleEvent.opened (some h), HandleEvent.closed (some h)])
      | some unc =>
          (unc, [HandleEvent.opened (some h), HandleEvent.closed (some h)])

/-- `FilesystemInterface::CanonicalUncPath`: the returned path alone. -/
def CanonicalUncPath (env : UncEnv) (path : String) : String :=
  (CanonicalUncPathTrace env path).1

/-- One directory entry as observed by `fs::directory_iterator`: its path and
the outcome of classifying it (`entry.status()` + `is_directory`), which can
throw per entry. -/
abbrev DirEntry := String × Except PlatformError Bool

/-- The scan loop of `GetDirectories`: push each directory entry, skip
non-directories; a per-entry classification failure throws out of the loop to
the catch block, which returns what was collected so far. -/
def getDirectoriesLoop : List DirEntry → List String → List String
  | [], acc => acc
  | (p, .ok true) :: rest, acc => getDirectoriesLoop rest (acc ++ [p])
  | (_, .ok false) :: rest, acc => getDirectoriesLoop rest acc
  | (_, .error _) :: _, acc => acc

/-- The scan loop of `GetFiles`: push each non-directory entry, skip
directories; same abort-to-catch behaviour on a per-entry failure. -/
def getFilesLoop : List DirEntry → List String → List String
  | [], acc => acc
  | (_, .ok true) :: rest, acc => getFilesLoop rest acc
  | (p, .ok false) :: rest, acc => getFilesLoop rest (acc ++ [p])
  | (_, .error _) :: _, acc => acc

/-- `FilesystemInterface::GetDirectories`: constructing the iterator can fail
(the catch then returns the empty vector); otherwise the scan loop runs over
the entries. -/
def GetDirectories (iter : Except PlatformError (List DirEntry)) :
    List String :=
  match iter with
  | .error _ => []
  | .ok entries => getDirectoriesLoop entries []

/-- `FilesystemInterface::GetFiles`: same structure with the complementary
classification. -/
def GetFiles (iter : Except PlatformError (List DirEntry)) : List String :=
  match iter with
  | .error _ => []
  | .ok entries => getFilesLoop entries []

/-- Paths of the directory entries of a scan. -/
def entryPaths (entries : List DirEntry) : List String :=
  entries.map Prod.fst

/-- The directory entries among a list whose classification succeeded as
directories. -/
def okDirs (entries : List DirEntry) : List String :=
  entries.filterMap fun x =>
    match x.2 with
    | .ok true => some x.1
    | _ => none

/-- The entries among a list whose classification succeeded as
non-directories. -/
def okFiles (entries : List DirEntry) : List String :=
  entries.filterMap fun x =>
    match x.2 with
    | .ok false => some x.1
    | _ => none

/-! ### Helper lemmas about the state model -/

theorem lookupFile_eraseFile_ne (l : List (String × String)) {p q : String}
    (h : p ≠ q) : lookupFile (eraseFile l q) p = lookupFile l p := by
  have hqp : ¬(q = p) := fun hq => h hq.symm
  induction l with
  | nil => rfl
  | cons a rest ih =>
      obtain ⟨k, v⟩ := a
      by_cases hk : k = q
      · have hkp : ¬(k = p) := fun hkp => h ((hkp ▸ hk : p = q))
        simp [eraseFile, lookupFile, hk, hkp, hqp, ih]
      · by_cases hkp : k = p
        · simp [eraseFile, lookupFile, hk, hkp, hqp, h]
        · simp [eraseFile, lookupFile, hk, hkp, hqp, ih]

theorem getFile_setFile_self (fs : FsState) (p c : String) :
    getFile (setFile fs p c) p = some c := by
  simp [getFile, setFile, lookupFile]

theorem getFile_setFile_ne (fs : FsState) {p q : String} (c : String)
    (h : p ≠ q) : getFile (setFile fs q c) p = getFile fs p := by
  have h2 : q ≠ p := fun hq => h hq.symm
  simp [getFile, setFile, lookupFile, h2, lookupFile_eraseFile_ne _ h]

theorem getFile_deleteFile_ne (fs : FsState) {p q : String} (h : p ≠ q) :
    getFile (deleteFile fs q) p = getFile fs p := by
  simp [getFile, deleteFile, lookupFile_eraseFile_ne _ h]

/-- The temporary path `path + ".new"` never equals the destination. -/
theorem temp_path_ne (path : String) : path ++ ".new" ≠ path := by
  intro h
  have hlen := congrArg String.length h
  simp [String.length_append] at hlen
  exact absurd hlen (by decide)

/-! ### Helper lemmas about the UNC buffer loop -/

theorem uncLoop_none (bufsize fuel : Nat) : uncLoop none bufsize fuel = none := by
  cases fuel with
  | zero => rfl
  | succ n => simp [uncLoop, getFinalPathNameByHandle]

theorem uncLoop_some (s : String) (hs : s ≠ "") (bufsize : Nat) :
    uncLoop (some s) bufsize 2 = some s := by
  have hlen : s.length ≠ 0 := by
    intro h0
    apply hs
    obtain ⟨data⟩ := s
    have hdata : data = [] := by
      simpa [String.length] using h0
    subst hdata
    rfl
  by_cases hfit : s.length ≤ bufsize
  · simp [uncLoop, getFinalPathNameByHandle, hfit, hlen]
  · have hfit2 : ¬(s.length + 1 ≤ bufsize) := by omega
    simp [uncLoop, getFinalPathNameByHandle, hfit, hfit2, hlen]

/-! ### Helper lemmas about the listing loops -/

/-- A scan whose entries all classify successfully collects exactly the
directory-classified entries, in order. -/
theorem getDirectoriesLoop_ok (entries : List DirEntry)
    (h : ∀ x ∈ entries, ∃ b, x.2 = Except.ok b) :
    ∀ acc, getDirectoriesLoop entries acc = acc ++ okDirs entries := by
  induction entries with
  | nil => intro acc; simp [getDirectoriesLoop, okDirs]
  | cons a rest ih =>
      intro acc
      obtain ⟨p, st⟩ := a
      obtain ⟨b, hb⟩ := h (p, st) (by simp)
      have hrest : ∀ x ∈ rest, ∃ b, x.2 = Except.ok b := fun x hx =>
        h x (by simp [hx])
      cases hb
      cases b with
      | true => simp [getDirectoriesLoop, okDirs, ih hrest, List.filterMap_cons]
      | false => simp [getDirectoriesLoop, okDirs, ih hrest, List.filterMap_cons]

theorem getFilesLoop_ok (entries : List DirEntry)
    (h : ∀ x ∈ entries, ∃ b, x.2 = Except.ok b) :
    ∀ acc, getFilesLoop entries acc = acc ++ okFiles entries := by
  induction entries with
  | nil => intro acc; simp [getFilesLoop, okFiles]
  | cons a rest ih =>
      intro acc
      obtain ⟨p, st⟩ := a
      obtain ⟨b, hb⟩ := h (p, st) (by simp)
      have hrest : ∀ x ∈ rest, ∃ b, x.2 = Except.ok b := fun x hx =>
        h x (by simp [hx])
      cases hb
      cases b with
      | true => simp [getFilesLoop, okFiles, ih hrest, List.filterMap_cons]
      | false => simp [getFilesLoop, okFiles, ih hrest, List.filterMap_cons]

/-- A per-entry failure ends the `GetDirectories` scan: the loop returns what
was collected from the prefix before the failure and never reaches the rest. -/
theorem getDirectoriesLoop_abort (pre : List DirEntry)
    (h : ∀ x ∈ pre, ∃ b, x.2 = Except.ok b) (q : String) (e : PlatformError)
    (rest : List DirEntry) :
    ∀ acc, getDirectoriesLoop (pre ++ (q, Except.error e) :: rest) acc
      = acc ++ okDirs pre := by
  induction pre with
  | nil => intro acc; simp [getDirectoriesLoop, okDirs]
  | cons a pre2 ih =>
      intro acc
      obtain ⟨p, st⟩ := a
      obtain ⟨b, hb⟩ := h (p, st) (by simp)
      have hpre : ∀ x ∈ pre2, ∃ b, x.2 = Except.ok b := fun x hx =>
        h x (by simp [hx])
      cases hb
      cases b with
      | true => simp [getDirectoriesLoop, okDirs, ih hpre, List.filterMap_cons]
      | false => simp [getDirectoriesLoop, okDirs, ih hpre, List.filterMap_cons]

theorem getFilesLoop_abort (pre : List DirEntry)
    (h : ∀ x ∈ pre, ∃ b, x.2 = Except.ok b) (q : String) (e : PlatformError)
    (rest : List DirEntry) :
    ∀ acc, getFilesLoop (pre ++ (q, Except.error e) :: rest) acc
      = acc ++ okFiles pre := by
  induction pre with
  | nil => intro acc; simp [getFilesLoop, okFiles]
  | cons a pre2 ih =>
      intro acc
      obtain ⟨p, st⟩ := a
      obtain ⟨b, hb⟩ := h (p, st) (by simp)
      have hpre : ∀ x ∈ pre2, ∃ b, x.2 = Except.ok b := fun x hx =>
        h x (by simp [hx])
      cases hb
      cases b with
      | true => simp [getFilesLoop, okFiles, ih hpre, List.filterMap_cons]
      | false => simp [getFilesLoop, okFiles, ih hpre, List.filterMap_cons]

/-! ### Claim theorems -/

/-- C1: `Write(path, content)` is atomic via write-then-rename: the temporary
is the destination with the distinct suffix `".new"` appended; the content is
written in full (plus the line terminator) to the temporary and then renamed
over the destination; a failure of the write step leaves the destination's
prior content (or absence) unchanged and makes `Write` return `false`; a
failed rename step makes `Write` return `false` even though the temporary
holds the full content, and the destination is still unchanged. -/
theorem write_atomic_via_rename (fs : FsState) (path content trunc : String)
    (writeFails renameFails : Bool) :
    (path ++ ".new" ≠ path) ∧
    (writeFails = true →
      (Write fs path content writeFails trunc renameFails).1 = false ∧
      getFile (Write fs path content writeFails trunc renameFails).2 path
        = getFile fs path) ∧
    (writeFails = false →
      Write fs path content writeFails trunc renameFails
        = Rename (setFile fs (path ++ ".new") (content ++ "\n"))
            (path ++ ".new") path renameFails) ∧
    (writeFails = false → renameFails = true →
      (Write fs path content writeFails trunc renameFails).1 = false ∧
      getFile (Write fs path content writeFails trunc renameFails).2 path
        = getFile fs path ∧
      getFile (Write fs path content writeFails trunc renameFails).2
        (path ++ ".new") = some (content ++ "\n")) := by
  have hne : path ≠ path ++ ".new" := fun h => temp_path_ne path h.symm
  refine ⟨temp_path_ne path, ?_, ?_, ?_⟩
  · intro hw
    subst hw
    exact ⟨rfl, getFile_setFile_ne fs trunc hne⟩
  · intro hw
    subst hw
    rfl
  · intro hw hr
    subst hw
    subst hr
    refine ⟨rfl, ?_, ?_⟩
    · simp [Write, Rename, getFile_setFile_ne fs (content ++ "\n") hne]
    · simp [Write, Rename, getFile_setFile_self]

theorem write_atomic_via_rename_witness :
    (Write ⟨[("p", "old")], [], ""⟩ "p" "c" false "x" true).1 = false ∧
    getFile (Write ⟨[("p", "old")], [], ""⟩ "p" "c" false "x" true).2 "p"
      = getFile ⟨[("p", "old")], [], ""⟩ "p" ∧
    getFile (Write ⟨[("p", "old")], [], ""⟩ "p" "c" false "x" true).2
      ("p" ++ ".new") = some ("c" ++ "\n") :=
  (write_atomic_via_rename ⟨[("p", "old")], [], ""⟩ "p" "c" "x" false true).2.2.2
    rfl rfl

/-- C4: a successful `Write(p, c)` followed by `Read(p)` yields `c` plus the
single trailing line terminator that `Write` appends. -/
theorem write_read_round_trip (fs : FsState) (path content : String)
    (hp : path ≠ "") :
    (Write fs path content false "" false).1 = true ∧
    Read (Write fs path content false "" false).2 path false
      = content ++ "\n" := by
  constructor
  · simp [Write, Rename, getFile_setFile_self]
  · simp [Write, Rename, Read, getFile_setFile_self]

theorem write_read_round_trip_witness :
    Read (Write ⟨[], [], ""⟩ "a/b.txt" "hello" false "" false).2 "a/b.txt" false
      = "hello" ++ "\n" :=
  (write_read_round_trip ⟨[], [], ""⟩ "a/b.txt" "hello" (by decide)).2

/-- C7: `CreateDirectory` is idempotent: with no platform failure, two calls
in succession both return `true`, `DirectoryExists` holds after either call,
and an already-existing directory is treated as success (the state is left
untouched) rather than a spurious failure. -/
theorem create_directory_idempotent (fs : FsState) (d : String) :
    (CreateDirectory fs d false false).1 = true ∧
    (CreateDirectory (CreateDirectory fs d false false).2 d false false).1
      = true ∧
    DirectoryExists (CreateDirectory fs d false false).2 d false = true ∧
    DirectoryExists
      (CreateDirectory (CreateDirectory fs d false false).2 d false false).2
      d false = true ∧
    (fs.dirs.contains d = true → (CreateDirectory fs d false false).2 = fs) := by
  by_cases hd : d ∈ fs.dirs
  · simp [CreateDirectory, DirectoryExists, createDirPrim, hd]
  · simp [CreateDirectory, DirectoryExists, createDirPrim, hd]

theorem create_directory_idempotent_witness :
    (CreateDirectory ⟨[], ["d"], ""⟩ "d" false false).2 = ⟨[], ["d"], ""⟩ :=
  (create_directory_idempotent ⟨[], ["d"], ""⟩ "d").2.2.2.2 (by decide)

/-- C10: `Remove` discards the did-remove boolean of `fs::remove`: with no
platform failure it returns `true` even when the path was absent and nothing
was removed, and it returns `false` exactly when the platform throws. -/
theorem remove_discards_did_remove (fs : FsState) (p : String)
    (habs : getFile fs p = none) (hdir : fs.dirs.contains p = false) :
    Remove fs p false = (true, fs) ∧
    (∀ fails : Bool, ((Remove fs p fails).1 = false ↔ fails = true)) := by
  have hdir2 : ¬(p ∈ fs.dirs) := by simpa using hdir
  constructor
  · simp [Remove, removePrim, habs, hdir2]
  · intro fails
    cases fails
    · simp [Remove, removePrim, habs, hdir2]
    · simp [Remove, removePrim]

theorem remove_discards_did_remove_witness :
    Remove ⟨[], [], ""⟩ "gone" false = (true, ⟨[], [], ""⟩) :=
  (remove_discards_did_remove ⟨[], [], ""⟩ "gone" rfl rfl).1

/-- C5: `Absolute` falls back to the unmodified input when canonicalization
fails, and is a fixed point under the platform contract that the resolver's
output is itself canonical. -/
theorem absolute_fallback_fixed_point (canonical : String → Option String)
    (p : String)
    (hIdem : ∀ a b, canonical a = some b → canonical b = some b) :
    (canonical p = none → Absolute canonical p = p) ∧
    Absolute canonical (Absolute canonical p) = Absolute canonical p := by
  constructor
  · intro h
    simp [Absolute, h]
  · cases hc : canonical p with
    | none => simp [Absolute, hc]
    | some q =>
        have hq := hIdem p q hc
        simp [Absolute, hc, hq]

/-- A concrete canonicalization resolver used by witnesses: `"a"` resolves to
`"/a"`, which is already canonical; everything else fails. -/
def canonEx (s : String) : Option String :=
  if s = "a" then some "/a" else if s = "/a" then some "/a" else none

theorem canonEx_idem : ∀ a b, canonEx a = some b → canonEx b = some b := by
  intro a b h
  by_cases h1 : a = "a"
  · rw [h1] at h
    have hv : canonEx "a" = some "/a" := by decide
    rw [hv] at h
    rw [(Option.some.inj h).symm]
    decide
  · by_cases h2 : a = "/a"
    · rw [h2] at h
      have hv : canonEx "/a" = some "/a" := by decide
      rw [hv] at h
      rw [(Option.some.inj h).symm]
      decide
    · exfalso
      have hv : canonEx a = none := by simp [canonEx, h1, h2]
      rw [hv] at h
      exact Option.noConfusion h

theorem absolute_fallback_fixed_point_witness :
    (canonEx "missing" = none → Absolute canonEx "missing" = "missing") ∧
    Absolute canonEx (Absolute canonEx "a") = Absolute canonEx "a" := by
  constructor
  · exact (absolute_fallback_fixed_point canonEx "missing" canonEx_idem).1
  · exact (absolute_fallback_fixed_point canonEx "a" canonEx_idem).2

/-- C6: `CanonicalUncPath(p)` returns exactly `Absolute(p)` whenever the
handle cannot be opened or the final-path query fails; when both succeed it
returns the handle-derived path (which the platform guarantees nonempty). -/
theorem canonical_unc_fallback (env : UncEnv) (path : String) :
    (env.openHandle path = none →
      CanonicalUncPath env path = Absolute env.canonical path) ∧
    (∀ hdl, env.openHandle path = some hdl → env.finalPath hdl = none →
      CanonicalUncPath env path = Absolute env.canonical path) ∧
    (∀ hdl s, env.openHandle path = some hdl → env.finalPath hdl = some s →
      s ≠ "" → CanonicalUncPath env path = s) := by
  refine ⟨?_, ?_, ?_⟩
  · intro h
    simp [CanonicalUncPath, CanonicalUncPathTrace, h]
  · intro hdl hopen hfp
    simp [CanonicalUncPath, CanonicalUncPathTrace, hopen, hfp, uncLoop_none]
  · intro hdl s hopen hfp hs
    simp [CanonicalUncPath, CanonicalUncPathTrace, hopen, hfp,
      uncLoop_some s hs]

/-- A concrete platform environment for witnesses: every open yields handle
`7`, which resolves to the UNC path `"u"`; textual canonicalization fails. -/
def uncEnvEx : UncEnv :=
  { canonical := fun _ => none
    openHandle := fun _ => some 7
    finalPath := fun _ => some "u" }

theorem canonical_unc_fallback_witness :
    CanonicalUncPath uncEnvEx "x" = "u" :=
  (canonical_unc_fallback uncEnvEx "x").2.2 7 "u" rfl rfl (by decide)

/-- C9: on every exit path of `CanonicalUncPath` — open failure, query
failure, and success — exactly one handle close is performed before the
return, its argument is exactly the handle state the open on that path
produced, and the returned path agrees with the uninstrumented function, so
no handle is ever held across a return boundary. -/
theorem canonical_unc_handle_scoped (env : UncEnv) (path : String) :
    (CanonicalUncPathTrace env path).2
      = [HandleEvent.opened (env.openHandle path),
         HandleEvent.closed (env.openHandle path)] ∧
    (CanonicalUncPathTrace env path).1 = CanonicalUncPath env path := by
  constructor
  · cases hopen : env.openHandle path with
    | none => simp [CanonicalUncPathTrace, hopen]
    | some hdl =>
        cases hloop : uncLoop (env.finalPath hdl) (2 * path.length) 2 with
        | none => simp [CanonicalUncPathTrace, hopen, hloop]
        | some unc => simp [CanonicalUncPathTrace, hopen, hloop]
  · rfl

/-! ### Membership characterizations for the listing results -/

theorem mem_okDirs {entries : List DirEntry} {p : String} :
    p ∈ okDirs entries ↔ (p, Except.ok true) ∈ entries := by
  induction entries with
  | nil => simp [okDirs]
  | cons a rest ih =>
      obtain ⟨q, st⟩ := a
      cases st with
      | error e => simp [okDirs, List.filterMap_cons] at ih ⊢; simp [ih]
      | ok b =>
          cases b with
          | true => simp [okDirs, List.filterMap_cons] at ih ⊢; simp [ih]
          | false => simp [okDirs, List.filterMap_cons] at ih ⊢; simp [ih]

theorem mem_okFiles {entries : List DirEntry} {p : String} :
    p ∈ okFiles entries ↔ (p, Except.ok false) ∈ entries := by
  induction entries with
  | nil => simp [okFiles]
  | cons a rest ih =>
      obtain ⟨q, st⟩ := a
      cases st with
      | error e => simp [okFiles, List.filterMap_cons] at ih ⊢; simp [ih]
      | ok b =>
          cases b with
          | true => simp [okFiles, List.filterMap_cons] at ih ⊢; simp [ih]
          | false => simp [okFiles, List.filterMap_cons] at ih ⊢; simp [ih]

/-- C3 counterexample: in a scan whose middle entry fails classification, the
entry after the failure classifies successfully as a directory and yet does
not appear in the `GetDirectories` result — the scan was aborted, not merely
that one entry skipped. -/
theorem listing_abort_counterexample :
    GetDirectories (Except.ok [("a", Except.ok true),
      ("b", Except.error PlatformError.permissionDenied),
      ("c", Except.ok true)]) = ["a"] ∧
    ¬("c" ∈ GetDirectories (Except.ok [("a", Except.ok true),
      ("b", Except.error PlatformError.permissionDenied),
      ("c", Except.ok true)])) := by
  decide

/-- C3 amended: a per-entry classification error aborts the remainder of the
scan; the listing returns exactly the matching entries collected from the
prefix before the first failing entry, and nothing after it. -/
theorem listing_abort_on_entry_error (pre rest : List DirEntry) (q : String)
    (e : PlatformError) (h : ∀ x ∈ pre, ∃ b, x.2 = Except.ok b) :
    GetDirectories (Except.ok (pre ++ (q, Except.error e) :: rest))
      = okDirs pre ∧
    GetFiles (Except.ok (pre ++ (q, Except.error e) :: rest))
      = okFiles pre := by
  constructor
  · simpa [GetDirectories] using getDirectoriesLoop_abort pre h q e rest []
  · simpa [GetFiles] using getFilesLoop_abort pre h q e rest []

theorem listing_abort_on_entry_error_witness :
    GetDirectories (Except.ok ([("a", Except.ok true)] ++
      ("b", Except.error PlatformError.ioFailure) :: [("c", Except.ok true)]))
      = okDirs [("a", Except.ok true)] :=
  (listing_abort_on_entry_error [("a", Except.ok true)] [("c", Except.ok true)]
    "b" PlatformError.ioFailure
    (by
      intro x hx
      simp only [List.mem_singleton] at hx
      exact ⟨true, by rw [hx]⟩)).1

/-- C8: when every entry of a scan classifies successfully and the entry
paths are distinct, the union of `GetDirectories` and `GetFiles` is exactly
the set of immediate children, and the two results are disjoint. -/
theorem listing_partition (entries : List DirEntry)
    (hok : ∀ x ∈ entries, ∃ b, x.2 = Except.ok b)
    (hnd : (entryPaths entries).Nodup) :
    (∀ p, (p ∈ GetDirectories (Except.ok entries)
        ∨ p ∈ GetFiles (Except.ok entries)) ↔ p ∈ entryPaths entries) ∧
    (∀ p, p ∈ GetDirectories (Except.ok entries) →
      ¬(p ∈ GetFiles (Except.ok entries))) := by
  have hdirs : GetDirectories (Except.ok entries) = okDirs entries := by
    simpa [GetDirectories] using getDirectoriesLoop_ok entries hok []
  have hfiles : GetFiles (Except.ok entries) = okFiles entries := by
    simpa [GetFiles] using getFilesLoop_ok entries hok []
  constructor
  · intro p
    rw [hdirs, hfiles, mem_okDirs, mem_okFiles]
    constructor
    · rintro (hmem | hmem)
      · exact List.mem_map.mpr ⟨(p, Except.ok true), hmem, rfl⟩
      · exact List.mem_map.mpr ⟨(p, Except.ok false), hmem, rfl⟩
    · intro hmem
      obtain ⟨x, hx, hxp⟩ := List.mem_map.mp hmem
      obtain ⟨b, hb⟩ := hok x hx
      have hxeq : x = (p, Except.ok b) := by
        obtain ⟨x1, x2⟩ := x
        simp only at hxp hb
        rw [hxp, hb]
      cases b with
      | true => exact Or.inl (hxeq ▸ hx)
      | false => exact Or.inr (hxeq ▸ hx)
  · intro p hdir hfile
    rw [hdirs, mem_okDirs] at hdir
    rw [hfiles, mem_okFiles] at hfile
    have heq := List.inj_on_of_nodup_map hnd hdir hfile rfl
    simp at heq

theorem listing_partition_witness :
    ("a" ∈ GetDirectories (Except.ok [("a", Except.ok true),
        ("b", Except.ok false)])
      ∨ "a" ∈ GetFiles (Except.ok [("a", Except.ok true),
        ("b", Except.ok false)]))
      ↔ "a" ∈ entryPaths [("a", Except.ok true), ("b", Except.ok false)] :=
  (listing_partition [("a", Except.ok true), ("b", Except.ok false)]
    (by
      intro x hx
      simp only [List.mem_cons, List.mem_singleton] at hx
      rcases hx with h | h | h
      · exact ⟨true, by rw [h]⟩
      · exact ⟨false, by rw [h]⟩
      · exact absurd h (by simp))
    (by decide)).1 "a"

/-- C2 counterexample: a `GetFiles` scan interrupted by a platform failure
after one entry returns the partial list `["x"]`, not the stated empty-list
sentinel, so not every failing operation returns its stated sentinel. -/
theorem error_sentinel_counterexample :
    GetFiles (Except.ok [("x", Except.ok false),
      ("y", Except.error PlatformError.ioFailure)]) = ["x"] ∧
    (["x"] : List String) ≠ [] := by
  decide

/-- C2 amended: every operation absorbs platform failures and never
propagates an error signal; on failure, `Read` returns empty content, the
boolean operations return `false` (with the state unchanged where they
mutate), `Absolute` returns the original path, `CanonicalUncPath` falls back
to `Absolute`, and a listing returns the empty list when the scan fails to
start but the entries collected before the failure — not necessarily empty —
when a failure interrupts the scan. -/
theorem error_sentinel_policy :
    (∀ fs p, Read fs p true = "") ∧
    (∀ fs p c t rF, (Write fs p c true t rF).1 = false) ∧
    (∀ fs p c t, (Write fs p c false t true).1 = false) ∧
    (∀ fs d, ChangeDirectory fs d true = (false, fs)) ∧
    (∀ fs d, DirectoryExists fs d true = false) ∧
    (∀ fs p, FileExists fs p true = false) ∧
    (∀ fs d eF, DirectoryExists fs d eF = false →
      (CreateDirectory fs d eF true) = (false, fs)) ∧
    (∀ fs a b, Rename fs a b true = (false, fs)) ∧
    (∀ fs p, Remove fs p true = (false, fs)) ∧
    (∀ canonical p, canonical p = none → Absolute canonical p = p) ∧
    (∀ env p, env.openHandle p = none →
      CanonicalUncPath env p = Absolute env.canonical p) ∧
    (∀ e, GetDirectories (Except.error e) = ([] : List String)) ∧
    (∀ e, GetFiles (Except.error e) = ([] : List String)) ∧
    (∀ pre rest q e, (∀ x ∈ pre, ∃ b, x.2 = Except.ok b) →
      GetDirectories (Except.ok (pre ++ (q, Except.error e) :: rest))
          = okDirs pre ∧
      GetFiles (Except.ok (pre ++ (q, Except.error e) :: rest))
          = okFiles pre) := by
  refine ⟨?_, ?_, ?_, ?_, ?_, ?_, ?_, ?_, ?_, ?_, ?_, ?_, ?_, ?_⟩
  · intro fs p
    rfl
  · intro fs p c t rF
    rfl
  · intro fs p c t
    simp [Write, Rename]
  · intro fs d
    rfl
  · intro fs d
    rfl
  · intro fs p
    rfl
  · intro fs d eF h
    simp [CreateDirectory, createDirPrim, h]
  · intro fs a b
    rfl
  · intro fs p
    rfl
  · intro canonical p h
    simp [Absolute, h]
  · intro env p h
    simp [CanonicalUncPath, CanonicalUncPathTrace, h]
  · intro e
    rfl
  · intro e
    rfl
  · intro pre rest q e h
    constructor
    · simpa [GetDirectories] using getDirectoriesLoop_abort pre h q e rest []
    · simpa [GetFiles] using getFilesLoop_abort pre h q e rest []

theorem error_sentinel_policy_witness :
    CreateDirectory ⟨[], [], ""⟩ "d" false true = (false, ⟨[], [], ""⟩) := by
  have h := error_sentinel_policy
  exact h.2.2.2.2.2.2.1 ⟨[], [], ""⟩ "d" false rfl

end winss
